import Mathlib

/-!
Verification of the filter–rank–deduplicate core of the Job-Finder
repository (`src/utils/filter_utils.py`), shallowly embedded in Lean.

Python strings are Lean `String`s; `str.lower()` is `String.lower`
(ASCII case folding, which agrees with Python on every configured
keyword and state name in the repository).  Python `datetime` values
are modelled as `Int` seconds on a global timeline, with the ambient
`datetime.now()` passed in explicitly as a parameter `now`; an absent
`posted_date` is `none`.  Python dicts holding postings are modelled
as a `Job` structure whose fields default to the `dict.get` defaults.
-/

/-- Python `str.lower()`: character-wise ASCII case folding.  (Defined
directly over the character list so that it reduces in the kernel.) -/
def String.lower (s : String) : String :=
  ⟨s.data.map Char.toLower⟩

namespace JobFinder

/-- Python `needle in hay` on strings: substring containment, scanning
every split position. -/
def containsSub (hay needle : String) : Bool :=
  (List.range (hay.toList.length + 1)).any
    (fun i => needle.toList.isPrefixOf (hay.toList.drop i))

/-- Python regex word character (`\w`), ASCII reading: alphanumeric or
underscore. -/
def isWordChar (c : Char) : Bool := c.isAlphanum || c == '_'

/-- Word-ness of an optional character; the edge of the string counts
as a non-word position. -/
def optWord : Option Char → Bool
  | none => false
  | some c => isWordChar c

/-- `re.search(r'\b' + re.escape(kw) + r'\b', text)`: the keyword occurs
at some position with a word boundary (`\b`, a transition between word
and non-word) on both sides. -/
def reSearchWB (kw hay : List Char) : Bool :=
  (List.range (hay.length + 1)).any (fun i =>
    kw.isPrefixOf (hay.drop i)
      && (optWord (hay.take i).getLast? != optWord kw.head?)
      && (optWord kw.getLast? != optWord ((hay.drop i).drop kw.length).head?))

/-- A job-posting record.  Field defaults mirror the `job.get(k, '')`
defaults used throughout `filter_utils.py`.  `posted_date` is seconds;
`rank` is 0 until `rank_jobs` assigns it. -/
structure Job where
  title : String := ""
  description : String := ""
  location : String := ""
  url : String := ""
  company : String := ""
  posted_date : Option Int := none
  keyword_matches : List String := []
  rank : Nat := 0
deriving DecidableEq, Repr

/-- The `JobFilter` class state: the two keyword lists stored by
`__init__`. -/
structure JobFilter where
  job_level_keywords : List String
  technical_keywords : List String
deriving Repr

/-- `JobFilter.__init__`: both configured lists are case-folded once at
construction. -/
def JobFilter.init (job_level_keywords technical_keywords : List String) : JobFilter :=
  { job_level_keywords := job_level_keywords.map String.lower
    technical_keywords := technical_keywords.map String.lower }

/-- The hard-coded negative seniority markers checked (after the
positive scan) by `is_entry_level`. -/
def negative_markers : List String :=
  ["senior", "lead", "principal", "architect", "manager"]

/-- `JobFilter.is_entry_level`: scan the lowered `f"{title} {description}"`
for any configured level marker, returning `True` on the first hit;
otherwise fall through to the negative-marker check, whose both branches
return `False`. -/
def JobFilter.is_entry_level (f : JobFilter) (job_title : String)
    (job_description : String := "") : Bool :=
  let text := (job_title ++ " " ++ job_description).lower
  if f.job_level_keywords.any (fun keyword => containsSub text keyword) then
    true
  else if negative_markers.any (fun neg_keyword => containsSub text neg_keyword) then
    false
  else
    false

/-- `JobFilter.matches_technical_keywords`: word-boundary search of each
configured technical keyword in the lowered `f"{title} {description}"`,
collecting the hits and removing duplicates (`list(set(matches))`; the
set's iteration order is arbitrary in Python, so only the underlying set
of this list is meaningful). -/
def JobFilter.matches_technical_keywords (f : JobFilter) (job_title : String)
    (job_description : String := "") : List String :=
  let text := (job_title ++ " " ++ job_description).lower
  (f.technical_keywords.filter (fun keyword => reSearchWB keyword.toList text.toList)).dedup

/-- The hard-coded list of German state names plus country labels used
by `is_german_location`. -/
def german_states : List String :=
  ["Baden-Württemberg", "Bayern", "Berlin", "Brandenburg", "Bremen",
   "Hamburg", "Hessen", "Mecklenburg-Vorpommern", "Niedersachsen",
   "Nordrhein-Westfalen", "Rheinland-Pfalz", "Saarland", "Sachsen",
   "Sachsen-Anhalt", "Schleswig-Holstein", "Thüringen", "Germany",
   "Deutschland", "DE"]

/-- `JobFilter.is_german_location`: case-insensitive substring match of
any state name against the location. -/
def is_german_location (location : String) : Bool :=
  german_states.any (fun state => containsSub location.lower state.lower)

/-- The comparison inside the `try` block of `is_recent`: compare the
posting timestamp with the cutoff.  In the embedding it always succeeds;
the `Except` shape records that a failure, were one to occur, would be
caught by the handler. -/
def dateCompare (posted cutoff : Int) : Except String Bool :=
  Except.ok (decide (cutoff ≤ posted))

/-- The `except` clause of `is_recent`: a successful comparison is
returned as-is, any failure yields `True` (fail-open). -/
def failOpen : Except String Bool → Bool
  | Except.ok b => b
  | Except.error _ => true

/-- `JobFilter.is_recent`: unknown dates are included; otherwise the job
passes iff `posted_date >= now - timedelta(hours=hours)`, failing open on
any comparison error. -/
def is_recent (now : Int) (posted_date : Option Int) (hours : Int := 24) : Bool :=
  match posted_date with
  | none => true
  | some d => failOpen (dateCompare d (now - hours * 3600))

/-- `JobFilter.filter_jobs`: the filtering loop.  Each posting is dropped
(`continue`) unless it is entry-level, German-located, recent, and has a
non-empty technical-keyword match list; survivors get their computed
matches stored in `keyword_matches` (in Python by in-place mutation of
the dict) and are appended in input order. -/
def JobFilter.filter_jobs (f : JobFilter) (now : Int) (jobs : List Job)
    (hours : Int := 24) : List Job :=
  match jobs with
  | [] => []
  | job :: rest =>
    if !(f.is_entry_level job.title job.description) then
      f.filter_jobs now rest hours
    else if !(is_german_location job.location) then
      f.filter_jobs now rest hours
    else if !(is_recent now job.posted_date hours) then
      f.filter_jobs now rest hours
    else
      let ms := f.matches_technical_keywords job.title job.description
      if !ms.isEmpty then
        { job with keyword_matches := ms } :: f.filter_jobs now rest hours
      else
        f.filter_jobs now rest hours

/-- The identity triple used by `deduplicate_jobs`:
`(job.get('url',''), job.get('company',''), job.get('title',''))`. -/
def jobKey (job : Job) : String × String × String :=
  (job.url, job.company, job.title)

/-- The loop of `deduplicate_jobs`, with the `seen` set modelled as the
list of identifiers added so far. -/
def dedupGo (seen : List (String × String × String)) : List Job → List Job
  | [] => []
  | job :: rest =>
    if jobKey job ∈ seen then
      dedupGo seen rest
    else
      job :: dedupGo (jobKey job :: seen) rest

/-- `JobFilter.deduplicate_jobs`: keep the first posting for each exact
`(url, company, title)` triple, preserving order. -/
def deduplicate_jobs (jobs : List Job) : List Job :=
  dedupGo [] jobs

/-- The `calculate_score` closure inside `rank_jobs`: 10 per stored
keyword match, +5 for each of the three title phrase groups (substring,
lowered title), and a recency bonus from `hours_ago` — the age in hours
as real division by 3600, so `hours_ago < k` iff the age in seconds is
below `k * 3600`. -/
def calculate_score (now : Int) (job : Job) : Nat :=
  let base := job.keyword_matches.length * 10
  let title_lower := job.title.lower
  let bonus1 :=
    if containsSub title_lower "ai" || containsSub title_lower "artificial intelligence" then 5
    else 0
  let bonus2 :=
    if containsSub title_lower "data scientist" || containsSub title_lower "data science" then 5
    else 0
  let bonus3 :=
    if containsSub title_lower "machine learning" || containsSub title_lower "ml engineer" then 5
    else 0
  let recency :=
    match job.posted_date with
    | none => 0
    | some d =>
      if now - d < 3600 then 20
      else if now - d < 6 * 3600 then 15
      else if now - d < 12 * 3600 then 10
      else 0
  base + bonus1 + bonus2 + bonus3 + recency

/-- `for i, job in enumerate(ranked_jobs, 1): job['rank'] = i`. -/
def assignRanks (i : Nat) : List Job → List Job
  | [] => []
  | job :: rest => { job with rank := i } :: assignRanks (i + 1) rest

/-- `JobFilter.rank_jobs`: Python's stable `sorted(..., reverse=True)`
over the score key (descending order, ties keep input order), then
1-based rank assignment. -/
def rank_jobs (now : Int) (jobs : List Job) : List Job :=
  let ranked_jobs :=
    jobs.mergeSort (fun a b => decide (calculate_score now b ≤ calculate_score now a))
  assignRanks 1 ranked_jobs

/-- Erase the `rank` field (set it to its default), to compare ranked
output with input up to the in-place rank assignment. -/
def clearRank (job : Job) : Job := { job with rank := 0 }

/-- Whether a posting passes every criterion of the `filter_jobs` loop. -/
def passesFilter (f : JobFilter) (now : Int) (hours : Int) (job : Job) : Bool :=
  f.is_entry_level job.title job.description
    && is_german_location job.location
    && is_recent now job.posted_date hours
    && !(f.matches_technical_keywords job.title job.description).isEmpty

/-- The in-place update `job['keyword_matches'] = matches` performed on
surviving postings. -/
def storeMatches (f : JobFilter) (job : Job) : Job :=
  { job with keyword_matches := f.matches_technical_keywords job.title job.description }

/-- Modelled from the spec (§4.4 score formula): the title phrase-group
bonus, `+5` for each of the three groups present in the title. -/
def specTitleBonus (title : String) : Nat :=
  (if containsSub title.lower "ai" || containsSub title.lower "artificial intelligence"
    then 5 else 0)
  + (if containsSub title.lower "data scientist" || containsSub title.lower "data science"
    then 5 else 0)
  + (if containsSub title.lower "machine learning" || containsSub title.lower "ml engineer"
    then 5 else 0)

/-- Modelled from the spec (§4.4): recency bonus `+20` if age < 1 hour,
`+15` if age < 6 hours, `+10` if age < 12 hours, `+0` otherwise or when
the date is missing. -/
def specRecencyBonus (now : Int) : Option Int → Nat
  | none => 0
  | some d =>
    if now - d < 1 * 3600 then 20
    else if now - d < 6 * 3600 then 15
    else if now - d < 12 * 3600 then 10
    else 0

/-- `is_entry_level` with the negative-marker branch removed: just the
positive scan. -/
def positiveScanOnly (f : JobFilter) (job_title job_description : String) : Bool :=
  let text := (job_title ++ " " ++ job_description).lower
  f.job_level_keywords.any (fun keyword => containsSub text keyword)

/-- A concrete filter configuration for spec scenario checks: level
marker "junior", technical keyword "ai". -/
def jfEx : JobFilter := JobFilter.init ["junior"] ["ai"]

/-- The posting of spec scenario 1: "Junior AI Engineer" in Berlin. -/
def jobEx : Job :=
  { title := "Junior AI Engineer", location := "Berlin, Germany",
    url := "https://x/1", company := "Acme" }

/-- First of two tied postings (score 15: one stored keyword match plus
the "ai" title bonus) for the ranking-stability scenario. -/
def jobB : Job :=
  { title := "AI Developer", company := "B", keyword_matches := ["python"] }

/-- Second of two tied postings (also score 15) for the
ranking-stability scenario. -/
def jobA : Job :=
  { title := "AI Researcher", company := "A", keyword_matches := ["python"] }

/-- First of two postings sharing the exact (url, company, title)
triple, for the deduplication scenario. -/
def dupA : Job := { url := "https://x/1", company := "Acme", title := "ML Engineer" }

/-- Second posting with the same identity triple as `dupA` but a
different description, so the records themselves differ. -/
def dupB : Job :=
  { url := "https://x/1", company := "Acme", title := "ML Engineer",
    description := "second copy" }

/-! ## Helper lemmas -/

/-- The filtering loop is the `List.filter` of its pass predicate
followed by the in-place `keyword_matches` update on survivors. -/
theorem filter_jobs_eq (f : JobFilter) (now hours : Int) (jobs : List Job) :
    f.filter_jobs now jobs hours =
      (jobs.filter (passesFilter f now hours)).map (storeMatches f) := by
  induction jobs with
  | nil => rfl
  | cons job rest ih =>
    simp only [JobFilter.filter_jobs, List.filter_cons, passesFilter]
    by_cases h1 : f.is_entry_level job.title job.description = true <;>
      by_cases h2 : is_german_location job.location = true <;>
        by_cases h3 : is_recent now job.posted_date hours = true <;>
          by_cases h4 :
              (f.matches_technical_keywords job.title job.description).isEmpty = true <;>
            simp [h1, h2, h3, h4, ih, storeMatches]

/-! ## Claim theorems -/

/-- C1: a posting appears in the output of `filter_jobs` if and only if
it is classified entry-level, its location is classified German, it is
recent for the given window, and its matched-keyword list is non-empty;
survivors keep their input order (and carry the in-place
`keyword_matches` update the loop performs on them). -/
theorem filter_jobs_characterization (f : JobFilter) (now hours : Int)
    (jobs : List Job) :
    f.filter_jobs now jobs hours =
      (jobs.filter (fun job =>
        f.is_entry_level job.title job.description
          && is_german_location job.location
          && is_recent now job.posted_date hours
          && !(f.matches_technical_keywords job.title job.description).isEmpty)).map
        (storeMatches f) :=
  filter_jobs_eq f now hours jobs

/-- C9: the filter output is a subset of its input — every output
element is an input element (up to the in-place `keyword_matches`
update the loop performs on it, mutation in the Python original), and
the output is no longer than the input. -/
theorem filter_jobs_subset (f : JobFilter) (now hours : Int) (jobs : List Job) :
    (∀ j ∈ f.filter_jobs now jobs hours, ∃ j0 ∈ jobs, j = storeMatches f j0)
    ∧ (f.filter_jobs now jobs hours).length ≤ jobs.length := by
  constructor
  · intro j hj
    rw [filter_jobs_eq] at hj
    obtain ⟨j0, hj0, rfl⟩ := List.mem_map.mp hj
    exact ⟨j0, List.mem_of_mem_filter hj0, rfl⟩
  · rw [filter_jobs_eq, List.length_map]
    exact List.length_filter_le _ _

/-- Witness for C9 at the spec's scenario-1 posting. -/
theorem filter_jobs_subset_witness :
    ∃ j0 ∈ ([jobEx] : List Job), storeMatches jfEx jobEx = storeMatches jfEx j0 :=
  (filter_jobs_subset jfEx 0 24 [jobEx]).1 (storeMatches jfEx jobEx) (by decide)

/-- The dedup loop's output is an (order-preserving) sublist of its
input. -/
theorem dedupGo_sublist (seen : List (String × String × String)) (l : List Job) :
    List.Sublist (dedupGo seen l) l := by
  induction l generalizing seen with
  | nil => exact List.Sublist.refl _
  | cons job rest ih =>
    simp only [dedupGo]
    by_cases h : jobKey job ∈ seen
    · simp only [h, if_pos]
      exact (ih seen).cons job
    · simp only [h, if_neg, not_false_iff]
      exact (ih (jobKey job :: seen)).cons₂ job

/-- Every key of an input posting is either already in `seen` or
represented in the dedup loop's output. -/
theorem dedupGo_complete (seen : List (String × String × String)) (l : List Job) :
    ∀ j ∈ l, jobKey j ∈ seen ∨ ∃ k ∈ dedupGo seen l, jobKey k = jobKey j := by
  induction l generalizing seen with
  | nil => intro j hj; cases hj
  | cons job rest ih =>
    intro j hj
    simp only [dedupGo]
    by_cases h : jobKey job ∈ seen
    · simp only [h, if_pos]
      rcases List.mem_cons.mp hj with heq | hj'
      · exact Or.inl (by rw [heq]; exact h)
      · exact ih seen j hj'
    · simp only [h, if_neg, not_false_iff]
      rcases List.mem_cons.mp hj with heq | hj'
      · exact Or.inr ⟨job, List.mem_cons_self _ _, by rw [heq]⟩
      · rcases ih (jobKey job :: seen) j hj' with hseen | ⟨k, hk, hkey⟩
        · rcases List.mem_cons.mp hseen with heq | hseen'
          · exact Or.inr ⟨job, List.mem_cons_self _ _, heq.symm⟩
          · exact Or.inl hseen'
        · exact Or.inr ⟨k, List.mem_cons_of_mem _ hk, hkey⟩

/-- The dedup loop emits pairwise-distinct keys, none of them in
`seen`. -/
theorem dedupGo_nodup_keys (seen : List (String × String × String)) (l : List Job) :
    ((dedupGo seen l).map jobKey).Nodup
      ∧ ∀ k ∈ (dedupGo seen l).map jobKey, k ∉ seen := by
  induction l generalizing seen with
  | nil => exact ⟨List.nodup_nil, by intro k hk; cases hk⟩
  | cons job rest ih =>
    simp only [dedupGo]
    by_cases h : jobKey job ∈ seen
    · simp only [h, if_pos]
      exact ih seen
    · simp only [h, if_neg, not_false_iff, List.map_cons]
      obtain ⟨hnd, hout⟩ := ih (jobKey job :: seen)
      refine ⟨List.nodup_cons.mpr ⟨?_, hnd⟩, ?_⟩
      · intro hmem
        exact hout _ hmem (List.mem_cons_self _ _)
      · intro k hk
        rcases List.mem_cons.mp hk with rfl | hk'
        · exact h
        · intro hkseen
          exact hout k hk' (List.mem_cons_of_mem _ hkseen)

/-- Each posting the dedup loop keeps is exactly the first input
posting bearing its key (and its key was not in `seen`). -/
theorem dedupGo_find (seen : List (String × String × String)) (l : List Job) :
    ∀ j ∈ dedupGo seen l,
      jobKey j ∉ seen
        ∧ l.find? (fun x => decide (jobKey x = jobKey j)) = some j := by
  induction l generalizing seen with
  | nil => intro j hj; cases hj
  | cons job rest ih =>
    intro j hj
    simp only [dedupGo] at hj
    by_cases h : jobKey job ∈ seen
    · simp only [h, if_pos] at hj
      obtain ⟨hnotseen, hfind⟩ := ih seen j hj
      have hne : jobKey job ≠ jobKey j := by
        intro heq; exact hnotseen (heq ▸ h)
      refine ⟨hnotseen, ?_⟩
      rw [List.find?_cons_of_neg _ (by simpa using hne), hfind]
    · simp only [h, if_neg, not_false_iff, List.mem_cons] at hj
      rcases hj with rfl | hj'
      · exact ⟨h, List.find?_cons_of_pos _ (by simp)⟩
      · obtain ⟨hnotseen, hfind⟩ := ih (jobKey job :: seen) j hj'
        have hne : jobKey job ≠ jobKey j := by
          intro heq
          exact hnotseen (heq ▸ List.mem_cons_self _ _)
        refine ⟨fun hs => hnotseen (List.mem_cons_of_mem _ hs), ?_⟩
        rw [List.find?_cons_of_neg _ (by simpa using hne), hfind]

/-- On an input whose keys are pairwise distinct and disjoint from
`seen`, the dedup loop is the identity. -/
theorem dedupGo_of_nodup (seen : List (String × String × String)) (l : List Job)
    (hnd : (l.map jobKey).Nodup) (hdisj : ∀ j ∈ l, jobKey j ∉ seen) :
    dedupGo seen l = l := by
  induction l generalizing seen with
  | nil => rfl
  | cons job rest ih =>
    simp only [List.map_cons, List.nodup_cons] at hnd
    have h : jobKey job ∉ seen := hdisj job (List.mem_cons_self _ _)
    simp only [dedupGo, h, if_neg, not_false_iff]
    have hdisj2 : ∀ j ∈ rest, jobKey j ∉ jobKey job :: seen := by
      intro j hj
      rw [List.mem_cons]
      push_neg
      refine ⟨?_, hdisj j (List.mem_cons_of_mem _ hj)⟩
      intro heq
      exact hnd.1 (heq ▸ List.mem_map_of_mem jobKey hj)
    rw [ih (jobKey job :: seen) hnd.2 hdisj2]

/-- C4: `deduplicate_jobs` preserves input order (output is a sublist
of the input), every input key is represented, output keys are
pairwise distinct (so a posting is dropped exactly when an earlier one
has a byte-identical `(url, company, title)` triple), and each kept
posting is the first input posting with its key. -/
theorem deduplicate_jobs_spec (jobs : List Job) :
    List.Sublist (deduplicate_jobs jobs) jobs
    ∧ (∀ j ∈ jobs, ∃ k ∈ deduplicate_jobs jobs, jobKey k = jobKey j)
    ∧ ((deduplicate_jobs jobs).map jobKey).Nodup
    ∧ (∀ j ∈ deduplicate_jobs jobs,
        jobs.find? (fun x => decide (jobKey x = jobKey j)) = some j) := by
  refine ⟨dedupGo_sublist [] jobs, ?_, (dedupGo_nodup_keys [] jobs).1, ?_⟩
  · intro j hj
    rcases dedupGo_complete [] jobs j hj with hseen | hk
    · cases hseen
    · exact hk
  · intro j hj
    exact (dedupGo_find [] jobs j hj).2

/-- Witness for C4: of two postings with the identical triple
`("https://x/1", "Acme", "ML Engineer")`, the first one is kept and is
the first match for its key. -/
theorem deduplicate_jobs_spec_witness :
    [dupA, dupB].find? (fun x => decide (jobKey x = jobKey dupA)) = some dupA :=
  (deduplicate_jobs_spec [dupA, dupB]).2.2.2 dupA (by decide)

/-- C8: deduplication is idempotent. -/
theorem deduplicate_jobs_idempotent (jobs : List Job) :
    deduplicate_jobs (deduplicate_jobs jobs) = deduplicate_jobs jobs := by
  apply dedupGo_of_nodup [] _ (dedupGo_nodup_keys [] jobs).1
  intro j _ hj
  cases hj

/-- Rank assignment does not change the postings apart from the `rank`
field. -/
theorem assignRanks_map_clearRank (i : Nat) (l : List Job) :
    (assignRanks i l).map clearRank = l.map clearRank := by
  induction l generalizing i with
  | nil => rfl
  | cons job rest ih => simp [assignRanks, clearRank, ih]

/-- Rank assignment starting at `i` writes the consecutive integers
`i, i+1, ...` into the `rank` fields. -/
theorem assignRanks_map_rank (i : Nat) (l : List Job) :
    (assignRanks i l).map Job.rank = List.range' i l.length := by
  induction l generalizing i with
  | nil => rfl
  | cons job rest ih => simp [assignRanks, List.range'_succ, ih]

/-- The score ignores the `rank` field. -/
theorem calculate_score_clearRank (now : Int) (j : Job) :
    calculate_score now (clearRank j) = calculate_score now j := rfl

/-- The descending-score comparison is transitive. -/
theorem scoreLE_trans (now : Int) : ∀ a b c : Job,
    decide (calculate_score now b ≤ calculate_score now a) = true →
    decide (calculate_score now c ≤ calculate_score now b) = true →
    decide (calculate_score now c ≤ calculate_score now a) = true := by
  intro a b c hab hbc
  simp only [decide_eq_true_eq] at *
  exact le_trans hbc hab

/-- The descending-score comparison is total. -/
theorem scoreLE_total (now : Int) : ∀ a b : Job,
    (decide (calculate_score now b ≤ calculate_score now a)
      || decide (calculate_score now a ≤ calculate_score now b)) = true := by
  intro a b
  simp only [Bool.or_eq_true, decide_eq_true_eq]
  exact (Nat.le_total (calculate_score now b) (calculate_score now a))

/-- Rank assignment preserves descending-score sortedness (the score
never reads the `rank` field it overwrites). -/
theorem pairwise_assignRanks_score (now : Int) (i : Nat) (l : List Job)
    (h : l.Pairwise (fun a b => calculate_score now b ≤ calculate_score now a)) :
    (assignRanks i l).Pairwise
      (fun a b => calculate_score now b ≤ calculate_score now a) := by
  have h1 : ((assignRanks i l).map clearRank).Pairwise
      (fun a b => calculate_score now b ≤ calculate_score now a) := by
    rw [assignRanks_map_clearRank, List.pairwise_map]
    exact h.imp (fun hab => by simpa [calculate_score_clearRank] using hab)
  have h2 := List.pairwise_map.mp h1
  exact h2.imp (fun hab => by simpa [calculate_score_clearRank] using hab)

/-- C5: `rank_jobs` returns a permutation of its input (up to the
in-place `rank` assignment), sorted in descending score order, with the
`rank` fields holding exactly the integers `1..N` in order. -/
theorem rank_jobs_permutation (now : Int) (jobs : List Job) :
    ((rank_jobs now jobs).map clearRank).Perm (jobs.map clearRank)
    ∧ (rank_jobs now jobs).Pairwise
        (fun a b => calculate_score now b ≤ calculate_score now a)
    ∧ (rank_jobs now jobs).map Job.rank = List.range' 1 jobs.length := by
  simp only [rank_jobs]
  refine ⟨?_, ?_, ?_⟩
  · rw [assignRanks_map_clearRank]
    exact (List.mergeSort_perm jobs _).map clearRank
  · apply pairwise_assignRanks_score
    have hs := List.sorted_mergeSort (scoreLE_trans now) (scoreLE_total now) jobs
    exact hs.imp (fun hab => by simpa using hab)
  · rw [assignRanks_map_rank, List.length_mergeSort]

/-- C6: the sort inside `rank_jobs` is stable — two postings with equal
scores keep their input order in the output (compared up to the
in-place `rank` assignment). -/
theorem rank_jobs_stable (now : Int) (jobs : List Job) (a b : Job)
    (hsub : List.Sublist [a, b] jobs)
    (hscore : calculate_score now a = calculate_score now b) :
    List.Sublist [clearRank a, clearRank b] ((rank_jobs now jobs).map clearRank) := by
  simp only [rank_jobs]
  rw [assignRanks_map_clearRank]
  have hstep := List.pair_sublist_mergeSort (scoreLE_trans now) (scoreLE_total now)
    (by simp [hscore]) hsub
  exact hstep.map clearRank

/-- Witness for C6: two postings `B` then `A`, both scoring 15, stay in
the order `[B, A]` after ranking. -/
theorem rank_jobs_stable_witness :
    List.Sublist [clearRank jobB, clearRank jobA]
      ((rank_jobs 0 [jobB, jobA]).map clearRank) :=
  rank_jobs_stable 0 [jobB, jobA] jobB jobA (List.Sublist.refl _) (by decide)

/-- C2: `is_entry_level` is true iff some configured entry-level marker
is a case-insensitive substring of the (space-joined) concatenation of
title and description, and the negative seniority markers never change
the result — the function coincides with the positive scan alone. -/
theorem is_entry_level_positive_scan (lvl tech : List String) (t d : String) :
    ((JobFilter.init lvl tech).is_entry_level t d = true
      ↔ ∃ kw ∈ lvl, containsSub (t ++ " " ++ d).lower kw.lower = true)
    ∧ (∀ f : JobFilter, f.is_entry_level t d = positiveScanOnly f t d) := by
  have hpos : ∀ f : JobFilter, f.is_entry_level t d = positiveScanOnly f t d := by
    intro f
    simp only [JobFilter.is_entry_level, positiveScanOnly]
    by_cases h : (f.job_level_keywords.any
        fun keyword => containsSub (t ++ " " ++ d).lower keyword) = true
    · simp [h]
    · simp [h]
  refine ⟨?_, hpos⟩
  rw [hpos]
  simp [positiveScanOnly, JobFilter.init, List.any_eq_true]

/-- C3: the relevance score is 10 per stored keyword match plus the
three title phrase-group bonuses plus the recency bonus (both side
definitions written from the spec's wording); the matched-keyword list
the classifier stores is duplicate-free; and the spec's scenario — a
"Junior AI Engineer" with the single match "ai" posted within the last
hour — scores exactly 35. -/
theorem calculate_score_spec (now : Int) :
    (∀ job : Job, calculate_score now job =
        job.keyword_matches.length * 10 + specTitleBonus job.title
          + specRecencyBonus now job.posted_date)
    ∧ (∀ (f : JobFilter) (t d : String), (f.matches_technical_keywords t d).Nodup)
    ∧ calculate_score now
        { title := "Junior AI Engineer", keyword_matches := ["ai"],
          posted_date := some (now - 100) } = 35 := by
  refine ⟨?_, ?_, ?_⟩
  · intro job
    cases hpd : job.posted_date with
    | none =>
      simp only [calculate_score, specTitleBonus, specRecencyBonus, hpd]
      omega
    | some dte =>
      simp only [calculate_score, specTitleBonus, specRecencyBonus, hpd, one_mul]
      omega
  · intro f t d
    simp [JobFilter.matches_technical_keywords, List.nodup_dedup]
  · have h1 : containsSub (String.lower "Junior AI Engineer") "ai" = true := by decide
    have h3 : containsSub (String.lower "Junior AI Engineer") "data scientist" = false := by
      decide
    have h4 : containsSub (String.lower "Junior AI Engineer") "data science" = false := by
      decide
    have h5 : containsSub (String.lower "Junior AI Engineer") "machine learning" = false := by
      decide
    have h6 : containsSub (String.lower "Junior AI Engineer") "ml engineer" = false := by
      decide
    have h7 : now - (now - 100) = 100 := by omega
    simp [calculate_score, h1, h3, h4, h5, h6, h7]

/-- C7: `is_recent` includes unknown dates; a present date passes iff
`posted_date >= now - window_hours`; and the comparison's error handler
always yields `true` (fail-open), so no failure propagates. -/
theorem is_recent_fail_open (now hours d : Int) :
    is_recent now none hours = true
    ∧ (is_recent now (some d) hours = true ↔ now - hours * 3600 ≤ d)
    ∧ (∀ e : String, failOpen (Except.error e) = true) := by
  refine ⟨rfl, ?_, fun e => rfl⟩
  simp [is_recent, failOpen, dateCompare]

/-- Witness for C7: a posting from the epoch instant itself is recent
for a 24-hour window. -/
theorem is_recent_fail_open_witness : is_recent 0 (some 0) 24 = true :=
  (is_recent_fail_open 0 24 0).2.1.mpr (by decide)

/-- C10 counterexample: the claim's example "Amsterdam" contains no
"de" substring, and the code classifies it as not German. -/
theorem is_german_location_amsterdam : is_german_location "Amsterdam" = false := by
  decide

/-- C10 (amended): because the configured list contains "DE" and
matching is case-insensitive substring search, any location containing
"de" anywhere — e.g. the non-German "Denmark" — is classified German
(but not "Amsterdam", which has no "de" substring). -/
theorem is_german_location_de_substring (loc : String)
    (h : containsSub loc.lower "de" = true) : is_german_location loc = true := by
  have hde : String.lower "DE" = "de" := by decide
  simp only [is_german_location, List.any_eq_true]
  refine ⟨"DE", by decide, ?_⟩
  rw [hde]
  exact h

/-- Witness for C10: "Denmark" contains "de" and is classified
German. -/
theorem is_german_location_de_substring_witness :
    is_german_location "Denmark" = true :=
  is_german_location_de_substring "Denmark" (by decide)

end JobFinder
